import Mathlib

/-!
Verification of the model-context-window fetching tool
(scripts/fetch-model-info.py).

The program is embedded shallowly:

* JSON values are the inductive `JVal`; the Python value `None` (JSON
  `null`) is `JVal.null`.  A JSON object (Python `dict`) is an
  association list `JObj`; `dict.get` / `in` become `jget` / `hasKey`.
* `extract_context_window` mirrors the Python function of the same name,
  producing the output dictionary with its keys in insertion order.
* The network is an oracle `net : String -> HttpResult` mapping each URL
  to the outcome of the GET-plus-JSON-parse attempt; `fetchFromUrls`
  mirrors the URL fallback loop of `fetch_huggingface_config`, and
  `contactedUrls` records which URLs the loop contacts.
* The filesystem seen by `find_lm_studio_models` is a tree of `FsEntry`
  values; the three candidate base directories are looked up in an
  oracle `fs : String -> Option (List FsEntry)` (`none` means the
  directory does not exist).
* The dispatcher branches of `main` for the `huggingface` and `context`
  commands are modelled by their exit code together with the error
  payload they print, as `huggingface_cmd` and `context_cmd`.
-/

/-- JSON values as parsed by `json.loads`; `null` also stands for the
Python `None` that `dict.get` returns for a missing key. -/
inductive JVal where
  | null : JVal
  | bool : Bool → JVal
  | num : Int → JVal
  | str : String → JVal
  | arr : List JVal → JVal
  | obj : List (String × JVal) → JVal

/-- Python `v is None`. -/
def JVal.isNull : JVal → Bool
  | .null => true
  | _ => false

/-- A JSON object / Python dict, as an association list in insertion
order (keys are unique in every dict the program builds or parses). -/
abbrev JObj := List (String × JVal)

/-- First binding of key `k`, mirroring Python dict lookup. -/
def jfind : JObj → String → Option JVal
  | [], _ => none
  | (k', v) :: rest, k => if k' = k then some v else jfind rest k

/-- Python `k in d`. -/
def hasKey (c : JObj) (k : String) : Bool :=
  (jfind c k).isSome

/-- Python `d.get(k)`: the value if the key is present, else `None`. -/
def jget (c : JObj) (k : String) : JVal :=
  (jfind c k).getD JVal.null

/-- Python `d.get(k, default)`: the value if the key is present (even if
that value is `None`), else the default. -/
def jgetD (c : JObj) (k : String) (d : JVal) : JVal :=
  (jfind c k).getD d

/-- The alternative field names scanned by `extract_context_window`, in
the order of its `for` loop. -/
def aliasKeys : List String :=
  ["n_positions", "n_ctx", "max_seq_len", "max_sequence_length"]

/-- The `for key in [...]: if key in config: ...; break` scan: the first
key of `ks` that is present in `c`. -/
def findAlias (c : JObj) : List String → Option String
  | [] => none
  | k :: ks => if hasKey c k then some k else findAlias c ks

/-- The alias actually used by `extract_context_window` on `config`:
the scan runs only when the directly read `max_position_embeddings` is
`None` (which covers both a missing key and an explicit `null`), and
picks the first alias key present. -/
def resolvedAlias (config : JObj) : Option String :=
  if (jget config "max_position_embeddings").isNull then
    findAlias config aliasKeys
  else none

/-- The final `result["max_position_embeddings"]`: the alias value when
the scan hit, else the directly read value. -/
def resolvedMpe (config : JObj) : JVal :=
  match resolvedAlias config with
  | some k => jget config k
  | none => jget config "max_position_embeddings"

/-- The `source_field` entry appended by the alias scan, when it hit. -/
def sourceFieldPart (config : JObj) : JObj :=
  match resolvedAlias config with
  | some k => [("source_field", JVal.str k)]
  | none => []

/-- The `rope_scaling` entry, appended exactly when the key exists in
the input. -/
def ropePart (config : JObj) : JObj :=
  if hasKey config "rope_scaling" then
    [("rope_scaling", jget config "rope_scaling")]
  else []

/-- Shallow embedding of `extract_context_window`.  The result dict is
built with its four unconditional keys in insertion order; if the
directly read `max_position_embeddings` is `None` the alias scan runs,
overwriting that entry in place and appending `source_field`;
`rope_scaling` is appended when present in the input. -/
def extract_context_window (config : JObj) : JObj :=
  [("max_position_embeddings", resolvedMpe config),
   ("sliding_window", jget config "sliding_window"),
   ("model_type", jget config "model_type"),
   ("architectures", jgetD config "architectures" (JVal.arr []))]
  ++ sourceFieldPart config ++ ropePart config

/-- Removal of every binding of a key; `removeKey l k = l` when `k` is
not a key of `l`.  Used to compare a re-extraction with the original
output. -/
def removeKey : JObj → String → JObj
  | [], _ => []
  | (k', v) :: rest, k =>
      if k' = k then removeKey rest k else (k', v) :: removeKey rest k

/-- Outcome of one `urlopen` + `json.loads` attempt against a URL, as
seen by the `try` block of `fetch_huggingface_config`:
either a parsed JSON object, or an `urllib.error.HTTPError` with a
status code and message, or any other exception (network failure,
timeout, malformed JSON). -/
inductive HttpResult where
  | ok : JObj → HttpResult
  | httpError : Nat → String → HttpResult
  | exc : HttpResult

/-- The three candidate URLs of `fetch_huggingface_config`, in order. -/
def hfUrls (model_id : String) : List String :=
  ["https://huggingface.co/" ++ model_id ++ "/raw/main/config.json",
   "https://huggingface.co/" ++ model_id ++ "/resolve/main/config.json",
   "https://huggingface.co/" ++ model_id ++ "/blob/main/config.json"]

/-- An Error Record: `{"error": msg}`. -/
def errorRecord (msg : String) : JObj :=
  [("error", JVal.str msg)]

/-- The URL fallback loop of `fetch_huggingface_config`: return the
first parsed body; on HTTP 401 or 404 or on any other exception
continue to the next URL; on any other HTTP error return an Error
Record at once; when the list is exhausted return the generic Error
Record.  All exception paths are caught, so the loop is total. -/
def fetchFromUrls (net : String → HttpResult) : List String → JObj
  | [] => errorRecord "Failed to fetch config from all URLs"
  | u :: us =>
    match net u with
    | .ok body => body
    | .httpError code msg =>
      if code = 401 then fetchFromUrls net us
      else if code = 404 then fetchFromUrls net us
      else errorRecord ("HTTP error " ++ toString code ++ ": " ++ msg)
    | .exc => fetchFromUrls net us

/-- Shallow embedding of `fetch_huggingface_config`. -/
def fetch_huggingface_config (net : String → HttpResult) (model_id : String) : JObj :=
  fetchFromUrls net (hfUrls model_id)

/-- Instrumentation of the same loop: the URLs it actually contacts, in
order.  The loop stops contacting after a parsed body or a hard HTTP
error. -/
def contactedUrls (net : String → HttpResult) : List String → List String
  | [] => []
  | u :: us =>
    match net u with
    | .ok _ => [u]
    | .httpError code _ =>
      if code = 401 then u :: contactedUrls net us
      else if code = 404 then u :: contactedUrls net us
      else [u]
    | .exc => u :: contactedUrls net us

/-- A soft miss of one URL attempt: HTTP 401 or 404, or a non-HTTP
exception; the loop falls through to the next URL. -/
def softMiss : HttpResult → Bool
  | .ok _ => false
  | .httpError code _ => code == 401 || code == 404
  | .exc => true

/-- Dispatcher branch of `main` for the `huggingface` command, modelled
as (exit status, printed error payload): when the fetched mapping has
an `error` key the branch prints that value and exits 1, otherwise it
prints the extraction and the relevant raw fields and the process ends
with status 0. -/
def huggingface_cmd (net : String → HttpResult) (model_id : String) :
    Nat × Option JVal :=
  let config := fetch_huggingface_config net model_id
  match jfind config "error" with
  | some v => (1, some v)
  | none => (0, none)

/-- Dispatcher branch of `main` for the `context` command, modelled the
same way: error key present means print the error JSON and exit 1,
otherwise print the Context Window Record and exit 0. -/
def context_cmd (net : String → HttpResult) (model_id : String) :
    Nat × Option JVal :=
  let config := fetch_huggingface_config net model_id
  match jfind config "error" with
  | some v => (1, some v)
  | none => (0, none)

/-- A filesystem entry as the scanner sees it: a directory with a name
and its children, or a file with a name and the outcome of
open-read-`json.loads` on it (`Except.error` carries `str(e)` of the
raised exception). -/
inductive FsEntry where
  | dir : String → List FsEntry → FsEntry
  | file : String → Except String JObj → FsEntry

/-- Name of an entry. -/
def FsEntry.name : FsEntry → String
  | .dir n _ => n
  | .file n _ => n

/-- One element of the list built by `find_lm_studio_models`: the
`publisher/model` identifier, the model directory path, and either the
extracted config (the `config` field) or an error string (the `error`
field); the Python dict holds exactly one of the two. -/
structure LocalEntry where
  id : String
  path : String
  result : Except String JObj

/-- Result of `config_path.exists()` followed by open/parse inside the
model directory: `none` when no entry named `config.json` exists; a
directory of that name makes `open` raise, which the `except` clause
turns into an error entry. -/
def findConfigJson : List FsEntry → Option (Except String JObj)
  | [] => none
  | .file n c :: rest =>
      if n = "config.json" then some c else findConfigJson rest
  | .dir n _ :: rest =>
      if n = "config.json" then some (Except.error "IsADirectoryError")
      else findConfigJson rest

/-- Body of the innermost loop of `find_lm_studio_models`: a non-dir
entry is skipped; a model directory contributes one entry when it holds
a `config.json`, successful parses going through
`extract_context_window`. -/
def scanModelDir (basePath pubName : String) : FsEntry → List LocalEntry
  | .file _ _ => []
  | .dir modelName entries =>
    let path := basePath ++ "/" ++ pubName ++ "/" ++ modelName
    let id := pubName ++ "/" ++ modelName
    match findConfigJson entries with
    | none => []
    | some (Except.ok config) =>
        [⟨id, path, Except.ok (extract_context_window config)⟩]
    | some (Except.error e) => [⟨id, path, Except.error e⟩]

/-- Middle loop: a non-dir entry under a base path is skipped; a
publisher directory is scanned model directory by model directory. -/
def scanPublisherDir (basePath : String) : FsEntry → List LocalEntry
  | .file _ _ => []
  | .dir pubName entries => entries.flatMap (scanModelDir basePath pubName)

/-- Scan of one existing base directory. -/
def scanBaseDir (basePath : String) (entries : List FsEntry) : List LocalEntry :=
  entries.flatMap (scanPublisherDir basePath)

/-- The three candidate LM Studio base directories, in the order the
source lists them, relative to the home directory. -/
def lmStudioPaths (home : String) : List String :=
  [home ++ "/.cache/lm-studio/models",
   home ++ "/.lmstudio/models",
   home ++ "/Library/Application Support/LM Studio/models"]

/-- Shallow embedding of `find_lm_studio_models` over a filesystem
oracle `fs` giving each base path its entries, or `none` when
`base_path.exists()` is false (such a path is skipped with
`continue`). -/
def find_lm_studio_models (home : String)
    (fs : String → Option (List FsEntry)) : List LocalEntry :=
  (lmStudioPaths home).flatMap fun p =>
    match fs p with
    | none => []
    | some entries => scanBaseDir p entries

/-- Contribution of one candidate base path to the scan: empty when the
directory does not exist. -/
def baseScan (p : String) (fs : String → Option (List FsEntry)) :
    List LocalEntry :=
  match fs p with
  | none => []
  | some entries => scanBaseDir p entries

example :
    extract_context_window [("n_positions", JVal.num 100)] =
      [("max_position_embeddings", JVal.num 100),
       ("sliding_window", JVal.null),
       ("model_type", JVal.null),
       ("architectures", JVal.arr []),
       ("source_field", JVal.str "n_positions")] := rfl

example :
    extract_context_window
        [("max_position_embeddings", JVal.null), ("n_ctx", JVal.num 7)] =
      [("max_position_embeddings", JVal.num 7),
       ("sliding_window", JVal.null),
       ("model_type", JVal.null),
       ("architectures", JVal.arr []),
       ("source_field", JVal.str "n_ctx")] := rfl

/-! ### Helper lemmas about dictionary lookup and the extractor -/

theorem jfind_append (l1 l2 : JObj) (k : String) :
    jfind (l1 ++ l2) k =
      match jfind l1 k with
      | some v => some v
      | none => jfind l2 k := by
  induction l1 with
  | nil => simp [jfind]
  | cons p rest ih =>
      obtain ⟨k', v⟩ := p
      by_cases h : k' = k <;> simp [jfind, h, ih]

theorem jfind_eq_none_of_hasKey_false (c : JObj) (k : String)
    (h : hasKey c k = false) : jfind c k = none := by
  unfold hasKey at h
  cases hf : jfind c k with
  | none => rfl
  | some v => rw [hf] at h; simp at h

theorem jget_of_jfind_some (c : JObj) (k : String) (v : JVal)
    (h : jfind c k = some v) : jget c k = v := by
  unfold jget; rw [h]; rfl

theorem jget_null_of_hasKey_false (c : JObj) (k : String)
    (h : hasKey c k = false) : jget c k = JVal.null := by
  unfold jget; rw [jfind_eq_none_of_hasKey_false c k h]; rfl

theorem findAlias_of_first (c : JObj) :
    ∀ pre k post, (∀ k' ∈ pre, hasKey c k' = false) → hasKey c k = true →
      findAlias c (pre ++ k :: post) = some k := by
  intro pre
  induction pre with
  | nil => intro k post _ hk; simp [findAlias, hk]
  | cons a rest ih =>
      intro k post habs hk
      have ha : hasKey c a = false := habs a (by simp)
      have hrest : ∀ k' ∈ rest, hasKey c k' = false := by
        intro k' hk'; exact habs k' (by simp [hk'])
      simp [findAlias, ha, ih k post hrest hk]

theorem findAlias_of_none (c : JObj) :
    ∀ ks, (∀ k ∈ ks, hasKey c k = false) → findAlias c ks = none := by
  intro ks
  induction ks with
  | nil => intro _; rfl
  | cons a rest ih =>
      intro habs
      have ha : hasKey c a = false := habs a (by simp)
      have hrest : ∀ k ∈ rest, hasKey c k = false := by
        intro k hk; exact habs k (by simp [hk])
      simp [findAlias, ha, ih hrest]

theorem jfind_ecw_mpe (c : JObj) :
    jfind (extract_context_window c) "max_position_embeddings" =
      some (resolvedMpe c) := rfl

theorem jfind_ecw_sliding (c : JObj) :
    jfind (extract_context_window c) "sliding_window" =
      some (jget c "sliding_window") := rfl

theorem jfind_ecw_model_type (c : JObj) :
    jfind (extract_context_window c) "model_type" =
      some (jget c "model_type") := rfl

theorem jfind_ecw_arch (c : JObj) :
    jfind (extract_context_window c) "architectures" =
      some (jgetD c "architectures" (JVal.arr [])) := rfl

theorem jfind_ecw_source_field (c : JObj) :
    jfind (extract_context_window c) "source_field" =
      (resolvedAlias c).map JVal.str := by
  have h4 : jfind (extract_context_window c) "source_field" =
      jfind (sourceFieldPart c ++ ropePart c) "source_field" := rfl
  rw [h4]
  cases h : resolvedAlias c with
  | none =>
      cases hr : hasKey c "rope_scaling" <;>
        simp [sourceFieldPart, ropePart, h, hr, jfind]
  | some k => simp [sourceFieldPart, h, jfind]

theorem jfind_ecw_rope (c : JObj) :
    jfind (extract_context_window c) "rope_scaling" =
      if hasKey c "rope_scaling" then some (jget c "rope_scaling")
      else none := by
  have h4 : jfind (extract_context_window c) "rope_scaling" =
      jfind (sourceFieldPart c ++ ropePart c) "rope_scaling" := rfl
  rw [h4]
  cases h : resolvedAlias c <;> cases hr : hasKey c "rope_scaling" <;>
    simp [sourceFieldPart, ropePart, h, hr, jfind]

theorem resolvedAlias_of_mpe_absent (c : JObj)
    (hmpe : hasKey c "max_position_embeddings" = false) :
    resolvedAlias c = findAlias c aliasKeys := by
  unfold resolvedAlias
  rw [jget_null_of_hasKey_false c _ hmpe]
  rfl

theorem ecw_all_absent_aux (c : JObj)
    (h : ∀ k ∈ "max_position_embeddings" :: aliasKeys, hasKey c k = false) :
    jfind (extract_context_window c) "max_position_embeddings" =
      some JVal.null ∧
    jfind (extract_context_window c) "source_field" = none := by
  have hmpe : hasKey c "max_position_embeddings" = false := h _ (by simp)
  have hnull := jget_null_of_hasKey_false c "max_position_embeddings" hmpe
  have hra : resolvedAlias c = none := by
    rw [resolvedAlias_of_mpe_absent c hmpe]
    exact findAlias_of_none c aliasKeys (fun k hk => h k (by simp [hk]))
  constructor
  · rw [jfind_ecw_mpe]; simp [resolvedMpe, hra, hnull]
  · rw [jfind_ecw_source_field, hra]; rfl

/-- C1: when `max_position_embeddings` is not a key of the input but at
least one alias key is, the output takes the value of the first present
alias of `n_positions`, `n_ctx`, `max_seq_len`, `max_sequence_length`
(in that fixed order) and records its name as `source_field`; in
particular a configuration containing `n_positions` (for instance
alongside `n_ctx`) yields the `n_positions` value. -/
theorem alias_fallback_priority (c : JObj)
    (hmpe : hasKey c "max_position_embeddings" = false) :
    (∀ pre k post, aliasKeys = pre ++ k :: post →
        (∀ k' ∈ pre, hasKey c k' = false) → hasKey c k = true →
        jfind (extract_context_window c) "max_position_embeddings" =
          some (jget c k) ∧
        jfind (extract_context_window c) "source_field" =
          some (JVal.str k)) ∧
    (hasKey c "n_positions" = true →
        jfind (extract_context_window c) "max_position_embeddings" =
          some (jget c "n_positions") ∧
        jfind (extract_context_window c) "source_field" =
          some (JVal.str "n_positions")) := by
  have hra : ∀ pre k post, aliasKeys = pre ++ k :: post →
      (∀ k' ∈ pre, hasKey c k' = false) → hasKey c k = true →
      resolvedAlias c = some k := by
    intro pre k post hsplit habs hk
    rw [resolvedAlias_of_mpe_absent c hmpe, hsplit]
    exact findAlias_of_first c pre k post habs hk
  constructor
  · intro pre k post hsplit habs hk
    have h1 := hra pre k post hsplit habs hk
    exact ⟨by rw [jfind_ecw_mpe]; simp [resolvedMpe, h1],
           by rw [jfind_ecw_source_field, h1]; rfl⟩
  · intro hk
    have h1 := hra [] "n_positions"
      ["n_ctx", "max_seq_len", "max_sequence_length"] rfl (by simp) hk
    exact ⟨by rw [jfind_ecw_mpe]; simp [resolvedMpe, h1],
           by rw [jfind_ecw_source_field, h1]; rfl⟩

theorem alias_fallback_priority_witness :
    jfind (extract_context_window
        [("n_ctx", JVal.num 2048), ("n_positions_extra", JVal.num 1)])
      "max_position_embeddings" =
      some (jget [("n_ctx", JVal.num 2048), ("n_positions_extra", JVal.num 1)]
        "n_ctx") ∧
    jfind (extract_context_window
        [("n_ctx", JVal.num 2048), ("n_positions_extra", JVal.num 1)])
      "source_field" = some (JVal.str "n_ctx") :=
  (alias_fallback_priority
      [("n_ctx", JVal.num 2048), ("n_positions_extra", JVal.num 1)] rfl).1
    ["n_positions"] "n_ctx" ["max_seq_len", "max_sequence_length"] rfl
    (by decide) rfl

/-- C2 counterexample: a configuration that contains
`max_position_embeddings` bound to `null` alongside `n_positions` does
not keep the null value — the alias scan still runs, overwriting the
value and recording `source_field`, contrary to the claim that a
present key (even with a null value) is returned as-is with no
`source_field`. -/
theorem mpe_null_ignored_cex :
    hasKey [("max_position_embeddings", JVal.null),
            ("n_positions", JVal.num 100)] "max_position_embeddings" = true ∧
    jfind (extract_context_window
        [("max_position_embeddings", JVal.null),
         ("n_positions", JVal.num 100)]) "max_position_embeddings" ≠
      some (jget [("max_position_embeddings", JVal.null),
                  ("n_positions", JVal.num 100)] "max_position_embeddings") ∧
    jfind (extract_context_window
        [("max_position_embeddings", JVal.null),
         ("n_positions", JVal.num 100)]) "source_field" ≠ none :=
  ⟨rfl, fun h => JVal.noConfusion (Option.some.inj h),
    fun h => Option.noConfusion h⟩

/-- C2 amended: when the input binds `max_position_embeddings` to a
non-null value, the output carries exactly that value and no
`source_field`, regardless of which alias keys are also present; a null
value instead triggers the alias scan exactly as a missing key does. -/
theorem mpe_direct_read (c : JObj) (v : JVal)
    (hv : jfind c "max_position_embeddings" = some v)
    (hnn : v.isNull = false) :
    jfind (extract_context_window c) "max_position_embeddings" = some v ∧
    jfind (extract_context_window c) "source_field" = none := by
  have hg : jget c "max_position_embeddings" = v :=
    jget_of_jfind_some c _ v hv
  have hra : resolvedAlias c = none := by simp [resolvedAlias, hg, hnn]
  exact ⟨by rw [jfind_ecw_mpe]; simp [resolvedMpe, hra, hg],
         by rw [jfind_ecw_source_field, hra]; rfl⟩

theorem mpe_direct_read_witness :
    jfind (extract_context_window
        [("max_position_embeddings", JVal.num 32768), ("n_ctx", JVal.num 4)])
      "max_position_embeddings" = some (JVal.num 32768) ∧
    jfind (extract_context_window
        [("max_position_embeddings", JVal.num 32768), ("n_ctx", JVal.num 4)])
      "source_field" = none :=
  mpe_direct_read
    [("max_position_embeddings", JVal.num 32768), ("n_ctx", JVal.num 4)]
    (JVal.num 32768) rfl rfl

/-- C4 counterexample: on the empty configuration (which lacks all five
keys) the output does not omit `max_position_embeddings` — the key is
present, bound to `null` — so the claimed absence of that key fails
(`source_field` on the other hand is genuinely absent). -/
theorem absent_keys_cex :
    hasKey (extract_context_window ([] : JObj))
      "max_position_embeddings" = true ∧
    jfind (extract_context_window ([] : JObj))
      "max_position_embeddings" = some JVal.null ∧
    jfind (extract_context_window ([] : JObj)) "source_field" = none :=
  ⟨rfl, rfl, rfl⟩

/-- C4 amended: for inputs lacking `max_position_embeddings` and all
four alias keys, the output binds `max_position_embeddings` to `null`
(the key itself is always present, per the fixed result shape) and has
no `source_field` key. -/
theorem absent_keys_null (c : JObj)
    (h : ∀ k ∈ "max_position_embeddings" :: aliasKeys, hasKey c k = false) :
    jfind (extract_context_window c) "max_position_embeddings" =
      some JVal.null ∧
    jfind (extract_context_window c) "source_field" = none :=
  ecw_all_absent_aux c h

theorem absent_keys_null_witness :
    jfind (extract_context_window [("model_type", JVal.str "llama")])
      "max_position_embeddings" = some JVal.null ∧
    jfind (extract_context_window [("model_type", JVal.str "llama")])
      "source_field" = none :=
  absent_keys_null [("model_type", JVal.str "llama")] (by decide)

/-- C6: `rope_scaling` appears in the output exactly when it is a key of
the input, and its value is copied unchanged whatever its shape. -/
theorem rope_scaling_copied (c : JObj) :
    hasKey (extract_context_window c) "rope_scaling" =
      hasKey c "rope_scaling" ∧
    (∀ v, jfind c "rope_scaling" = some v →
      jfind (extract_context_window c) "rope_scaling" = some v) := by
  constructor
  · rw [hasKey, jfind_ecw_rope]
    cases hr : hasKey c "rope_scaling" <;> simp [hr]
  · intro v hv
    have hr : hasKey c "rope_scaling" = true := by simp [hasKey, hv]
    rw [jfind_ecw_rope]
    simp [hr, jget_of_jfind_some c _ v hv]

theorem rope_scaling_copied_witness :
    jfind (extract_context_window
        [("rope_scaling", JVal.obj [("factor", JVal.num 2)])])
      "rope_scaling" = some (JVal.obj [("factor", JVal.num 2)]) :=
  (rope_scaling_copied [("rope_scaling", JVal.obj [("factor", JVal.num 2)])]).2
    (JVal.obj [("factor", JVal.num 2)]) rfl

/-- C9 counterexample: an input lacking `max_position_embeddings` but
holding `n_positions` does not yield a null binding for that key — the
alias value is bound instead — so the claimed
missing-key-implies-null-binding fails for `max_position_embeddings`. -/
theorem fixed_shape_cex :
    hasKey [("n_positions", JVal.num 7)] "max_position_embeddings" = false ∧
    jfind (extract_context_window [("n_positions", JVal.num 7)])
      "max_position_embeddings" ≠ some JVal.null :=
  ⟨rfl, fun h => JVal.noConfusion (Option.some.inj h)⟩

/-- C9 amended: the output always contains the four keys
`max_position_embeddings`, `sliding_window`, `model_type`,
`architectures`; a missing `sliding_window` or `model_type` is bound to
null, a missing `max_position_embeddings` is bound to null when all
four alias keys are also missing (otherwise to the first alias value),
and a missing `architectures` is bound to the empty sequence; only
`source_field` and `rope_scaling` are conditionally present, so the key
sequence of the output is one of exactly four shapes. -/
theorem output_fixed_shape (c : JObj) :
    hasKey (extract_context_window c) "max_position_embeddings" = true ∧
    hasKey (extract_context_window c) "sliding_window" = true ∧
    hasKey (extract_context_window c) "model_type" = true ∧
    hasKey (extract_context_window c) "architectures" = true ∧
    (hasKey c "sliding_window" = false →
      jfind (extract_context_window c) "sliding_window" = some JVal.null) ∧
    (hasKey c "model_type" = false →
      jfind (extract_context_window c) "model_type" = some JVal.null) ∧
    ((∀ k ∈ "max_position_embeddings" :: aliasKeys, hasKey c k = false) →
      jfind (extract_context_window c) "max_position_embeddings" =
        some JVal.null) ∧
    (hasKey c "architectures" = false →
      jfind (extract_context_window c) "architectures" =
        some (JVal.arr [])) ∧
    (extract_context_window c).map Prod.fst ∈
      [["max_position_embeddings", "sliding_window", "model_type",
        "architectures"],
       ["max_position_embeddings", "sliding_window", "model_type",
        "architectures", "source_field"],
       ["max_position_embeddings", "sliding_window", "model_type",
        "architectures", "rope_scaling"],
       ["max_position_embeddings", "sliding_window", "model_type",
        "architectures", "source_field", "rope_scaling"]] := by
  refine ⟨by simp [hasKey, jfind_ecw_mpe], by simp [hasKey, jfind_ecw_sliding],
    by simp [hasKey, jfind_ecw_model_type], by simp [hasKey, jfind_ecw_arch],
    ?_, ?_, ?_, ?_, ?_⟩
  · intro h
    rw [jfind_ecw_sliding, jget_null_of_hasKey_false c _ h]
  · intro h
    rw [jfind_ecw_model_type, jget_null_of_hasKey_false c _ h]
  · intro h
    exact (ecw_all_absent_aux c h).1
  · intro h
    rw [jfind_ecw_arch]
    unfold jgetD
    rw [jfind_eq_none_of_hasKey_false c _ h]
    rfl
  · cases h : resolvedAlias c <;> cases hr : hasKey c "rope_scaling" <;>
      simp [extract_context_window, sourceFieldPart, ropePart, h, hr]

theorem output_fixed_shape_witness :
    jfind (extract_context_window ([] : JObj)) "sliding_window" =
      some JVal.null :=
  (output_fixed_shape ([] : JObj)).2.2.2.2.1 rfl

theorem removeKey_append (l1 l2 : JObj) (k : String) :
    removeKey (l1 ++ l2) k = removeKey l1 k ++ removeKey l2 k := by
  induction l1 with
  | nil => rfl
  | cons p rest ih =>
      obtain ⟨k', v⟩ := p
      by_cases hk : k' = k <;> simp [removeKey, hk, ih]

theorem removeKey_of_jfind_none (l : JObj) (k : String)
    (h : jfind l k = none) : removeKey l k = l := by
  induction l with
  | nil => rfl
  | cons p rest ih =>
      obtain ⟨k', v⟩ := p
      by_cases hk : k' = k
      · rw [jfind] at h; simp [hk] at h
      · rw [jfind] at h
        simp only [if_neg hk] at h
        simp [removeKey, hk, ih h]

theorem ecw_reapply_core (v s m a : JVal) (sf rp : JObj)
    (hsf : sf = [] ∨ ∃ k, sf = [("source_field", JVal.str k)])
    (hrp : rp = [] ∨ ∃ r, rp = [("rope_scaling", r)]) :
    extract_context_window
      ([("max_position_embeddings", v), ("sliding_window", s),
        ("model_type", m), ("architectures", a)] ++ sf ++ rp) =
      [("max_position_embeddings", v), ("sliding_window", s),
       ("model_type", m), ("architectures", a)] ++ rp := by
  rcases hsf with h1 | ⟨k, h1⟩ <;> rcases hrp with h2 | ⟨r, h2⟩ <;>
    subst h1 <;> subst h2 <;>
    simp [extract_context_window, resolvedMpe, resolvedAlias, sourceFieldPart,
      ropePart, findAlias, aliasKeys, jget, jgetD, hasKey, jfind]

/-- C5 counterexample: on `{"n_positions": 100}` the extractor is not
idempotent — the first application records `source_field`, and a second
application over that output drops it (the output holds none of the
alias keys, so the scan finds nothing), giving a different record. -/
theorem idempotence_cex :
    extract_context_window
        (extract_context_window [("n_positions", JVal.num 100)]) ≠
      extract_context_window [("n_positions", JVal.num 100)] ∧
    jfind (extract_context_window
        (extract_context_window [("n_positions", JVal.num 100)]))
      "source_field" = none ∧
    jfind (extract_context_window [("n_positions", JVal.num 100)])
      "source_field" = some (JVal.str "n_positions") := by
  refine ⟨?_, rfl, rfl⟩
  intro h
  have h2 := congrArg (fun l => jfind l "source_field") h
  exact Option.noConfusion h2

/-- C5 amended: re-applying the extractor to its own output yields that
output with the `source_field` binding removed; in particular the
extractor is idempotent exactly on the inputs for which no alias was
used (no `source_field` in the output), while an output carrying
`source_field` loses it on re-application. -/
theorem extract_reapplication (c : JObj) :
    extract_context_window (extract_context_window c) =
      removeKey (extract_context_window c) "source_field" ∧
    (jfind (extract_context_window c) "source_field" = none →
      extract_context_window (extract_context_window c) =
        extract_context_window c) := by
  have hsf : sourceFieldPart c = [] ∨
      ∃ k, sourceFieldPart c = [("source_field", JVal.str k)] := by
    cases h : resolvedAlias c with
    | none => left; simp [sourceFieldPart, h]
    | some k => right; exact ⟨k, by simp [sourceFieldPart, h]⟩
  have hrp : ropePart c = [] ∨ ∃ r, ropePart c = [("rope_scaling", r)] := by
    cases hr : hasKey c "rope_scaling"
    · left; simp [ropePart, hr]
    · right; exact ⟨jget c "rope_scaling", by simp [ropePart, hr]⟩
  have hmain : extract_context_window (extract_context_window c) =
      removeKey (extract_context_window c) "source_field" := by
    have heq : extract_context_window c =
        [("max_position_embeddings", resolvedMpe c),
         ("sliding_window", jget c "sliding_window"),
         ("model_type", jget c "model_type"),
         ("architectures", jgetD c "architectures" (JVal.arr []))]
        ++ sourceFieldPart c ++ ropePart c := rfl
    rw [heq, ecw_reapply_core _ _ _ _ _ _ hsf hrp,
      removeKey_append, removeKey_append]
    have hbase : removeKey
        [("max_position_embeddings", resolvedMpe c),
         ("sliding_window", jget c "sliding_window"),
         ("model_type", jget c "model_type"),
         ("architectures", jgetD c "architectures" (JVal.arr []))]
        "source_field" =
        [("max_position_embeddings", resolvedMpe c),
         ("sliding_window", jget c "sliding_window"),
         ("model_type", jget c "model_type"),
         ("architectures", jgetD c "architectures" (JVal.arr []))] := by
      simp [removeKey]
    have hsf2 : removeKey (sourceFieldPart c) "source_field" = [] := by
      rcases hsf with h | ⟨k, h⟩ <;> rw [h] <;> simp [removeKey]
    have hrp2 : removeKey (ropePart c) "source_field" = ropePart c := by
      rcases hrp with h | ⟨r, h⟩ <;> rw [h] <;> simp [removeKey]
    rw [hbase, hsf2, hrp2]
    simp
  exact ⟨hmain, fun hnone => hmain.trans
    (removeKey_of_jfind_none (extract_context_window c) "source_field" hnone)⟩

theorem extract_reapplication_witness :
    extract_context_window (extract_context_window
        [("max_position_embeddings", JVal.num 4096)]) =
      extract_context_window [("max_position_embeddings", JVal.num 4096)] :=
  (extract_reapplication [("max_position_embeddings", JVal.num 4096)]).2 rfl

/-! ### The Config Fetcher and the dispatcher -/

theorem fetchFromUrls_all_soft (net : String → HttpResult) :
    ∀ us, (∀ u ∈ us, softMiss (net u) = true) →
      fetchFromUrls net us =
        errorRecord "Failed to fetch config from all URLs" := by
  intro us
  induction us with
  | nil => intro _; rfl
  | cons u rest ih =>
      intro hall
      have hu : softMiss (net u) = true := hall u (by simp)
      have hrest : ∀ u' ∈ rest, softMiss (net u') = true :=
        fun u' hu' => hall u' (by simp [hu'])
      cases hn : net u with
      | ok body => rw [hn] at hu; simp [softMiss] at hu
      | httpError code msg =>
          rw [hn] at hu
          simp [softMiss] at hu
          rcases hu with h4 | h4 <;> subst h4 <;>
            simp [fetchFromUrls, hn, ih hrest]
      | exc => simp [fetchFromUrls, hn, ih hrest]

/-- C3: the fetcher tries its three URL templates in a fixed order;
a parsed body is returned at once and later URLs are not contacted;
HTTP 401 or 404 and non-HTTP exceptions fall through to the next URL;
any other HTTP status stops at once with a descriptive Error Record;
exhausting all URLs softly yields the generic Error Record.  The
embedding is a total function, so no exception escapes. -/
theorem fetch_fallback_chain (net : String → HttpResult)
    (model_id : String) :
    hfUrls model_id =
      ["https://huggingface.co/" ++ model_id ++ "/raw/main/config.json",
       "https://huggingface.co/" ++ model_id ++ "/resolve/main/config.json",
       "https://huggingface.co/" ++ model_id ++ "/blob/main/config.json"] ∧
    (∀ u us body, net u = HttpResult.ok body →
        fetchFromUrls net (u :: us) = body ∧
        contactedUrls net (u :: us) = [u]) ∧
    (∀ u us code msg, net u = HttpResult.httpError code msg →
        (code = 401 ∨ code = 404) →
        fetchFromUrls net (u :: us) = fetchFromUrls net us ∧
        contactedUrls net (u :: us) = u :: contactedUrls net us) ∧
    (∀ u us, net u = HttpResult.exc →
        fetchFromUrls net (u :: us) = fetchFromUrls net us ∧
        contactedUrls net (u :: us) = u :: contactedUrls net us) ∧
    (∀ u us code msg, net u = HttpResult.httpError code msg →
        code ≠ 401 → code ≠ 404 →
        fetchFromUrls net (u :: us) =
          errorRecord ("HTTP error " ++ toString code ++ ": " ++ msg) ∧
        contactedUrls net (u :: us) = [u]) ∧
    ((∀ u ∈ hfUrls model_id, softMiss (net u) = true) →
        fetch_huggingface_config net model_id =
          errorRecord "Failed to fetch config from all URLs") := by
  refine ⟨rfl, ?_, ?_, ?_, ?_, ?_⟩
  · intro u us body h
    exact ⟨by simp [fetchFromUrls, h], by simp [contactedUrls, h]⟩
  · intro u us code msg h hcode
    rcases hcode with h4 | h4 <;> subst h4 <;>
      exact ⟨by simp [fetchFromUrls, h], by simp [contactedUrls, h]⟩
  · intro u us h
    exact ⟨by simp [fetchFromUrls, h], by simp [contactedUrls, h]⟩
  · intro u us code msg h h1 h4
    exact ⟨by simp [fetchFromUrls, h, h1, h4],
           by simp [contactedUrls, h, h1, h4]⟩
  · intro hall
    exact fetchFromUrls_all_soft net (hfUrls model_id) hall

theorem fetch_fallback_chain_witness :
    fetchFromUrls (fun _ => HttpResult.ok [("a", JVal.num 1)]) ["u", "v"] =
      [("a", JVal.num 1)] ∧
    contactedUrls (fun _ => HttpResult.ok [("a", JVal.num 1)]) ["u", "v"] =
      ["u"] :=
  (fetch_fallback_chain (fun _ => HttpResult.ok [("a", JVal.num 1)]) "m").2.1
    "u" ["v"] [("a", JVal.num 1)] rfl

/-- C8 counterexample: serve on the very first URL a genuine,
successfully parsed configuration that happens to carry a top-level
`error` key (alongside a real field, so it is not an Error Record of
the fetcher) — the fetch succeeds, yet the `huggingface` branch exits
with status 1, contradicting the claimed exit 0 on success. -/
theorem huggingface_exit_cex :
    fetch_huggingface_config
        (fun _ => HttpResult.ok
          [("error", JVal.str "self-reported"),
           ("max_position_embeddings", JVal.num 8)]) "m" =
      [("error", JVal.str "self-reported"),
       ("max_position_embeddings", JVal.num 8)] ∧
    (huggingface_cmd
        (fun _ => HttpResult.ok
          [("error", JVal.str "self-reported"),
           ("max_position_embeddings", JVal.num 8)]) "m").1 = 1 :=
  ⟨rfl, rfl⟩

/-- C8 amended: a model identifier for which every URL variant yields
HTTP 404 makes the `huggingface` command print the generic error and
exit with status 1; a fetch whose result carries no top-level `error`
key exits with status 0 (a successfully fetched body that itself
contains an `error` key is treated as a failure instead). -/
theorem huggingface_exit_codes (net : String → HttpResult)
    (model_id : String) :
    ((∀ u ∈ hfUrls model_id, ∃ msg, net u = HttpResult.httpError 404 msg) →
        huggingface_cmd net model_id =
          (1, some (JVal.str "Failed to fetch config from all URLs"))) ∧
    (jfind (fetch_huggingface_config net model_id) "error" = none →
        huggingface_cmd net model_id = (0, none)) := by
  constructor
  · intro hall
    have hsoft : ∀ u ∈ hfUrls model_id, softMiss (net u) = true := by
      intro u hu
      obtain ⟨msg, hm⟩ := hall u hu
      simp [softMiss, hm]
    have hfetch : fetch_huggingface_config net model_id =
        errorRecord "Failed to fetch config from all URLs" :=
      fetchFromUrls_all_soft net (hfUrls model_id) hsoft
    simp [huggingface_cmd, hfetch, errorRecord, jfind]
  · intro h
    simp [huggingface_cmd, h]

theorem huggingface_exit_codes_witness :
    huggingface_cmd (fun _ => HttpResult.httpError 404 "Not Found") "demo" =
      (1, some (JVal.str "Failed to fetch config from all URLs")) :=
  (huggingface_exit_codes
      (fun _ => HttpResult.httpError 404 "Not Found") "demo").1
    (fun _ _ => ⟨"Not Found", rfl⟩)

/-- C10: both the `huggingface` and `context` branches detect failure
solely through the presence of a top-level `error` key in the fetched
mapping — exit 1 exactly when the key is present, exit 0 exactly when
it is absent — including the case of a successful HTTP fetch on the
first URL whose genuine body happens to contain an `error` key. -/
theorem error_key_dispatch (net : String → HttpResult)
    (model_id : String) :
    ((huggingface_cmd net model_id).1 = 1 ↔
      hasKey (fetch_huggingface_config net model_id) "error" = true) ∧
    ((context_cmd net model_id).1 = 1 ↔
      hasKey (fetch_huggingface_config net model_id) "error" = true) ∧
    ((huggingface_cmd net model_id).1 = 0 ↔
      hasKey (fetch_huggingface_config net model_id) "error" = false) ∧
    ((context_cmd net model_id).1 = 0 ↔
      hasKey (fetch_huggingface_config net model_id) "error" = false) ∧
    (∀ body,
      net ("https://huggingface.co/" ++ model_id ++ "/raw/main/config.json") =
        HttpResult.ok body →
      hasKey body "error" = true →
      (huggingface_cmd net model_id).1 = 1 ∧
      (context_cmd net model_id).1 = 1) := by
  cases hf : jfind (fetch_huggingface_config net model_id) "error" with
  | none =>
      refine ⟨?_, ?_, ?_, ?_, ?_⟩
      · simp [huggingface_cmd, hasKey, hf]
      · simp [context_cmd, hasKey, hf]
      · simp [huggingface_cmd, hasKey, hf]
      · simp [context_cmd, hasKey, hf]
      · intro body hb herr
        have hfetch : fetch_huggingface_config net model_id = body := by
          simp [fetch_huggingface_config, hfUrls, fetchFromUrls, hb]
        rw [hfetch] at hf
        unfold hasKey at herr
        rw [hf] at herr
        simp at herr
  | some v =>
      refine ⟨?_, ?_, ?_, ?_, ?_⟩
      · simp [huggingface_cmd, hasKey, hf]
      · simp [context_cmd, hasKey, hf]
      · simp [huggingface_cmd, hasKey, hf]
      · simp [context_cmd, hasKey, hf]
      · intro body hb herr
        simp [huggingface_cmd, context_cmd, hf]

theorem error_key_dispatch_witness :
    (huggingface_cmd (fun _ => HttpResult.ok [("error", JVal.str "x")])
        "m").1 = 1 ∧
    (context_cmd (fun _ => HttpResult.ok [("error", JVal.str "x")])
        "m").1 = 1 :=
  (error_key_dispatch (fun _ => HttpResult.ok [("error", JVal.str "x")])
      "m").2.2.2.2 [("error", JVal.str "x")] rfl rfl

/-! ### The Local Model Scanner -/

/-- C7: per-entry failure isolation of the scanner — a model directory
whose `config.json` parses contributes exactly one entry carrying
`id = publisher/model` and the extracted config (`Except.ok`, the
`config` field, no `error` field); one whose `config.json` fails to
read or parse contributes exactly one entry carrying the error string
(`Except.error`, the `error` field, no `config` field); the whole scan
is the concatenation of the three base-directory contributions, and a
base directory that does not exist contributes nothing (the embedding
is total, so no exception is raised there). -/
theorem scanner_error_isolation (home : String)
    (fs : String → Option (List FsEntry))
    (basePath pubName modelName : String) (entries : List FsEntry) :
    (∀ config, findConfigJson entries = some (Except.ok config) →
        scanModelDir basePath pubName (FsEntry.dir modelName entries) =
          [⟨pubName ++ "/" ++ modelName,
            basePath ++ "/" ++ pubName ++ "/" ++ modelName,
            Except.ok (extract_context_window config)⟩]) ∧
    (∀ e, findConfigJson entries = some (Except.error e) →
        scanModelDir basePath pubName (FsEntry.dir modelName entries) =
          [⟨pubName ++ "/" ++ modelName,
            basePath ++ "/" ++ pubName ++ "/" ++ modelName,
            Except.error e⟩]) ∧
    (find_lm_studio_models home fs =
      baseScan (home ++ "/.cache/lm-studio/models") fs ++
      baseScan (home ++ "/.lmstudio/models") fs ++
      baseScan (home ++ "/Library/Application Support/LM Studio/models")
        fs) ∧
    (∀ p, fs p = none → baseScan p fs = []) := by
  refine ⟨?_, ?_, ?_, ?_⟩
  · intro config h
    simp [scanModelDir, h]
  · intro e h
    simp [scanModelDir, h]
  · simp [find_lm_studio_models, lmStudioPaths, baseScan]
  · intro p hp
    simp [baseScan, hp]

theorem scanner_error_isolation_witness :
    scanModelDir "/b" "acme" (FsEntry.dir "modelA"
        [FsEntry.file "config.json"
          (Except.ok [("max_position_embeddings", JVal.num 4096)])]) =
      [⟨"acme/modelA", "/b/acme/modelA",
        Except.ok (extract_context_window
          [("max_position_embeddings", JVal.num 4096)])⟩] :=
  (scanner_error_isolation "/h" (fun _ => none) "/b" "acme" "modelA"
      [FsEntry.file "config.json"
        (Except.ok [("max_position_embeddings", JVal.num 4096)])]).1
    [("max_position_embeddings", JVal.num 4096)] rfl
